import Mathlib

/-!
Shallow embedding of the wd-tagger-rs prediction pipeline:
the label registry (src/tags.rs), the image preprocessor (src/processor.rs)
and the tagging pipeline (src/pipeline.rs).  Machine floats (f32) are
modelled by exact rationals; Rust HashMaps are modelled by association
lists with insert-overwrites-existing-key semantics; Rust Results are
modelled by Except.  Third-party collaborators (the ONNX inference
session, the image crate's resampling filter) are parameters of the
definitions that use them, mirroring the spec's "external collaborator"
boundary.
-/

namespace WdTagger

/-- Tag category codes from the tag CSV file (src/tags.rs `TagCategory`):
serde renames 0 to General, 1 to Artist, 3 to Copyright, 4 to Character,
5 to Meta, 9 to Rating. -/
inductive TagCategory
  | General
  | Artist
  | Copyright
  | Character
  | Meta
  | Rating
  deriving DecidableEq, Repr

/-- One record of the tag CSV file (src/tags.rs `Tag`). -/
structure Tag where
  tag_id : Int
  name : String
  category : TagCategory
  count : Int
  deriving DecidableEq, Repr

instance : Inhabited Tag := ⟨⟨0, "", TagCategory.General, 0⟩⟩

/-- The error enumeration of src/error.rs `TaggerError`. -/
inductive TaggerError
  | Hf : String → TaggerError
  | Ort : String → TaggerError
  | Cuda : String → TaggerError
  | Processor : String → TaggerError
  | Tag : String → TaggerError
  deriving DecidableEq, Repr

/-! ### Association-list model of Rust's HashMap -/

/-- The keys of an association map. -/
def keys {α β : Type} (m : List (α × β)) : List α :=
  m.map Prod.fst

/-- HashMap insert: overwrite the value when the key exists, otherwise add
the binding. -/
def hmInsert {α β : Type} [DecidableEq α] (m : List (α × β)) (k : α) (v : β) :
    List (α × β) :=
  if k ∈ keys m then m.map (fun p => if p.1 = k then (k, v) else p)
  else m ++ [(k, v)]

/-- HashMap built from an iterator of pairs (`collect::<HashMap<_,_>>()`):
later pairs overwrite earlier ones with the same key. -/
def hmFromList {α β : Type} [DecidableEq α] (l : List (α × β)) : List (α × β) :=
  l.foldl (fun m p => hmInsert m p.1 p.2) []

/-- HashMap `get`. -/
def hmGet {α β : Type} [DecidableEq α] (m : List (α × β)) (k : α) : Option β :=
  (m.find? (fun p => decide (p.1 = k))).map Prod.snd

theorem mem_keys_hmInsert {α β : Type} [DecidableEq α]
    (m : List (α × β)) (k : α) (v : β) (a : α) :
    a ∈ keys (hmInsert m k v) ↔ a ∈ keys m ∨ a = k := by
  unfold hmInsert
  by_cases hk : k ∈ keys m
  · rw [if_pos hk]
    have hkeys : keys (m.map (fun p => if p.1 = k then (k, v) else p)) = keys m := by
      unfold keys
      rw [List.map_map]
      apply List.map_congr_left
      intro p _
      by_cases h : p.1 = k <;> simp [h]
    rw [hkeys]
    constructor
    · exact Or.inl
    · rintro (h | rfl)
      · exact h
      · exact hk
  · rw [if_neg hk]
    unfold keys
    simp only [List.map_append, List.mem_append, List.map_cons, List.map_nil,
      List.mem_singleton]

theorem mem_keys_foldl_hmInsert {α β : Type} [DecidableEq α]
    (l : List (α × β)) (m : List (α × β)) (a : α) :
    a ∈ keys (l.foldl (fun m p => hmInsert m p.1 p.2) m) ↔
      a ∈ keys m ∨ a ∈ keys l := by
  induction l generalizing m with
  | nil => simp [keys]
  | cons hd tl ih =>
    simp only [List.foldl_cons]
    rw [ih, mem_keys_hmInsert]
    simp [keys]
    tauto

theorem mem_keys_hmFromList {α β : Type} [DecidableEq α]
    (l : List (α × β)) (a : α) :
    a ∈ keys (hmFromList l) ↔ a ∈ keys l := by
  unfold hmFromList
  rw [mem_keys_foldl_hmInsert]
  simp [keys]

theorem hmGet_isSome_iff {α β : Type} [DecidableEq α]
    (m : List (α × β)) (k : α) :
    (hmGet m k).isSome ↔ k ∈ keys m := by
  unfold hmGet
  constructor
  · intro h
    rcases hf : m.find? (fun p => decide (p.1 = k)) with _ | p
    · rw [hf] at h
      simp at h
    · have hmem := List.mem_of_find?_eq_some hf
      have hpk : p.1 = k := by
        have := List.find?_some hf
        simpa using this
      exact List.mem_map.mpr ⟨p, hmem, hpk⟩
  · intro h
    obtain ⟨p, hp, hpk⟩ := List.mem_map.mp h
    rcases hf : m.find? (fun q => decide (q.1 = k)) with _ | q
    · rw [List.find?_eq_none] at hf
      exact absurd (by simpa using hpk) (by simpa using hf p hp)
    · rw [hf]
      simp

theorem foldl_hmInsert_fresh {α β : Type} [DecidableEq α]
    (l : List (α × β)) (m : List (α × β))
    (hfresh : ∀ a ∈ keys l, a ∉ keys m) (hnodup : (keys l).Nodup) :
    l.foldl (fun m p => hmInsert m p.1 p.2) m = m ++ l := by
  induction l generalizing m with
  | nil => simp
  | cons hd tl ih =>
    have hkeys : keys (hd :: tl) = hd.1 :: keys tl := rfl
    rw [hkeys] at hfresh hnodup
    have hhd : hd.1 ∉ keys m := hfresh hd.1 (List.mem_cons_self _ _)
    have hnodups := List.nodup_cons.mp hnodup
    have hins : hmInsert m hd.1 hd.2 = m ++ [hd] := by
      unfold hmInsert
      simp [hhd]
    have hfresh' : ∀ a ∈ keys tl, a ∉ keys (m ++ [hd]) := by
      intro a ha
      have h1 : a ∉ keys m := hfresh a (List.mem_cons_of_mem _ ha)
      have h2 : a ≠ hd.1 := fun h => hnodups.1 (h ▸ ha)
      unfold keys
      simp only [List.map_append, List.mem_append]
      push_neg
      exact ⟨h1, by simpa using h2⟩
    simp only [List.foldl_cons, hins]
    rw [ih (m ++ [hd]) hfresh' hnodups.2]
    simp

theorem hmFromList_of_nodup {α β : Type} [DecidableEq α]
    (l : List (α × β)) (hnodup : (keys l).Nodup) :
    hmFromList l = l := by
  unfold hmFromList
  rw [foldl_hmInsert_fresh l [] (by simp [keys]) hnodup]
  simp

theorem hmGet_eq_some_mem {α β : Type} [DecidableEq α]
    (m : List (α × β)) (k : α) (v : β) (h : hmGet m k = some v) : (k, v) ∈ m := by
  unfold hmGet at h
  rcases hf : m.find? (fun p => decide (p.1 = k)) with _ | p
  · rw [hf] at h
    cases h
  · rw [hf] at h
    simp only [Option.map_some'] at h
    have hpk : p.1 = k := by simpa using List.find?_some hf
    have hmem := List.mem_of_find?_eq_some hf
    have hv : p.2 = v := by injection h
    have : (k, v) = p := by
      rw [← hpk, ← hv]
    rw [this]
    exact hmem

/-! ### The label registry (src/tags.rs) -/

/-- src/tags.rs `LabelTags`: the registry with its two lookup views. -/
structure LabelTags where
  total_tags : Nat
  label2tag : List (String × Tag)
  idx2tag : List (Nat × Tag)

/-- src/tags.rs `LabelTags::load`, applied to the already-parsed CSV rows
(file opening and CSV deserialization are I/O plumbing outside the model):
`label2tag` collects (name, tag) pairs into a HashMap, `idx2tag` collects
the enumerated rows. -/
def LabelTags.load (tag_list : List Tag) : LabelTags where
  total_tags := tag_list.length
  label2tag := hmFromList (tag_list.map fun tag => (tag.name, tag))
  idx2tag := hmFromList tag_list.enum

/-- The inner `fn map_pair` of src/tags.rs `LabelTags::create_probality_pairs`:
length-gate the probability vector against `idx2tag`, then zip position `idx`
with the name of the tag at key `idx` (the source's `.unwrap()` on that lookup
is modelled by `Option.getD default`; under the length gate the lookup always
succeeds). -/
def map_pair (idx2tags : List (Nat × Tag)) (probs : List Rat) :
    Except TaggerError (List (String × Rat)) :=
  if idx2tags.length ≠ probs.length then
    Except.error (TaggerError.Tag "Tags and probabilities length mismatch")
  else
    Except.ok (hmFromList (probs.enum.map fun ip =>
      (((hmGet idx2tags ip.1).getD default).name, ip.2)))

/-- Rust's `collect::<Result<Vec<_>, _>>()` over an iterator of Results, and
equally the `for`-loop with `?` in `ImageProcessor::process_batch`: stop at
the first error, otherwise collect all payloads in order. -/
def collectResults {α β : Type} (f : α → Except TaggerError β) :
    List α → Except TaggerError (List β)
  | [] => Except.ok []
  | a :: rest =>
    match f a with
    | Except.error e => Except.error e
    | Except.ok b =>
      match collectResults f rest with
      | Except.error e => Except.error e
      | Except.ok bs => Except.ok (b :: bs)

/-- src/tags.rs `LabelTags::create_probality_pairs` (name kept as written in
the source): map `map_pair` over the batch and collect the Results. -/
def LabelTags.create_probality_pairs (t : LabelTags) (tensor : List (List Rat)) :
    Except TaggerError (List (List (String × Rat))) :=
  collectResults (fun probs => map_pair t.idx2tag probs) tensor

theorem collectResults_ok_iff {α β : Type} (f : α → Except TaggerError β)
    (l : List α) :
    (∃ bs, collectResults f l = Except.ok bs) ↔ ∀ a ∈ l, ∃ b, f a = Except.ok b := by
  induction l with
  | nil => simp [collectResults]
  | cons a rest ih =>
    simp only [collectResults]
    rcases hfa : f a with e | b
    · simp only [List.mem_cons]
      constructor
      · rintro ⟨bs, hbs⟩
        cases hbs
      · intro h
        obtain ⟨b, hb⟩ := h a (Or.inl rfl)
        rw [hfa] at hb
        cases hb
    · rcases hrest : collectResults f rest with e | bs
      · constructor
        · rintro ⟨bs, hbs⟩
          cases hbs
        · intro h
          exfalso
          obtain ⟨bs, hbs⟩ := ih.mpr fun x hx => h x (List.mem_cons_of_mem _ hx)
          rw [hrest] at hbs
          cases hbs
      · constructor
        · rintro ⟨bs', _⟩
          intro x hx
          rcases List.mem_cons.mp hx with rfl | hx'
          · exact ⟨b, hfa⟩
          · exact (ih.mp ⟨bs, hrest⟩) x hx'
        · intro _
          exact ⟨b :: bs, rfl⟩

theorem collectResults_error {α β : Type} (f : α → Except TaggerError β)
    (l : List α) (e : TaggerError) (h : collectResults f l = Except.error e) :
    ∃ a ∈ l, f a = Except.error e := by
  induction l with
  | nil => cases h
  | cons a rest ih =>
    simp only [collectResults] at h
    rcases hfa : f a with e' | b
    · rw [hfa] at h
      injection h with h'
      exact ⟨a, List.mem_cons_self _ _, by rw [hfa, h']⟩
    · rw [hfa] at h
      rcases hrest : collectResults f rest with e' | bs
      · rw [hrest] at h
        injection h with h'
        obtain ⟨x, hx, hfx⟩ := ih (by rw [hrest, h'])
        exact ⟨x, List.mem_cons_of_mem _ hx, hfx⟩
      · rw [hrest] at h
        cases h

theorem collectResults_ok_mem {α β : Type} (f : α → Except TaggerError β)
    (l : List α) (bs : List β) (h : collectResults f l = Except.ok bs) :
    ∀ b ∈ bs, ∃ a ∈ l, f a = Except.ok b := by
  induction l generalizing bs with
  | nil =>
    cases h
    simp
  | cons a rest ih =>
    simp only [collectResults] at h
    rcases hfa : f a with e' | b'
    · rw [hfa] at h
      cases h
    · rw [hfa] at h
      rcases hrest : collectResults f rest with e' | bs'
      · rw [hrest] at h
        cases h
      · rw [hrest] at h
        injection h with h'
        subst h'
        intro b hb
        rcases List.mem_cons.mp hb with rfl | hb'
        · exact ⟨a, List.mem_cons_self _ _, hfa⟩
        · obtain ⟨x, hx, hfx⟩ := ih bs' hrest b hb'
          exact ⟨x, List.mem_cons_of_mem _ hx, hfx⟩

theorem collectResults_error_at {α β : Type} (f : α → Except TaggerError β)
    (l : List α) (i : Nat) (e : TaggerError)
    (hfail : ∃ a, l.get? i = some a ∧ f a = Except.error e)
    (hbefore : ∀ j, j < i → ∀ a, l.get? j = some a → ∃ b, f a = Except.ok b) :
    collectResults f l = Except.error e := by
  induction l generalizing i with
  | nil =>
    obtain ⟨a, ha, _⟩ := hfail
    cases ha
  | cons hd tl ih =>
    cases i with
    | zero =>
      obtain ⟨a, ha, hfa⟩ := hfail
      injection ha with ha'
      subst ha'
      simp only [collectResults, hfa]
    | succ i' =>
      obtain ⟨b, hb⟩ := hbefore 0 (Nat.succ_pos _) hd rfl
      simp only [collectResults, hb]
      rw [ih i' hfail fun j hj a ha => hbefore (j + 1) (by omega) a ha]

theorem collectResults_map {α β : Type} (f : α → Except TaggerError β)
    (g : α → β) (hfg : ∀ a, f a = Except.ok (g a)) (l : List α) :
    collectResults f l = Except.ok (l.map g) := by
  induction l with
  | nil => rfl
  | cons a rest ih => simp only [collectResults, hfg a, ih, List.map_cons]

theorem map_pair_ok_inv (idx2tags : List (Nat × Tag)) (probs : List Rat)
    (m : List (String × Rat)) (h : map_pair idx2tags probs = Except.ok m) :
    idx2tags.length = probs.length ∧
    m = hmFromList (probs.enum.map fun ip =>
      (((hmGet idx2tags ip.1).getD default).name, ip.2)) := by
  unfold map_pair at h
  by_cases hlen : idx2tags.length ≠ probs.length
  · rw [if_pos hlen] at h
    cases h
  · rw [if_neg hlen] at h
    push_neg at hlen
    injection h with h'
    exact ⟨hlen, h'.symm⟩

theorem map_pair_ok_iff (idx2tags : List (Nat × Tag)) (probs : List Rat) :
    (∃ m, map_pair idx2tags probs = Except.ok m) ↔ probs.length = idx2tags.length := by
  constructor
  · rintro ⟨m, hm⟩
    exact (map_pair_ok_inv idx2tags probs m hm).1.symm
  · intro h
    unfold map_pair
    rw [if_neg (by omega)]
    exact ⟨_, rfl⟩

theorem map_pair_error (idx2tags : List (Nat × Tag)) (probs : List Rat)
    (e : TaggerError) (h : map_pair idx2tags probs = Except.error e) :
    e = TaggerError.Tag "Tags and probabilities length mismatch" := by
  unfold map_pair at h
  by_cases hlen : idx2tags.length ≠ probs.length
  · rw [if_pos hlen] at h
    injection h with h'
    exact h'.symm
  · rw [if_neg hlen] at h
    cases h

theorem idx2tag_load (tag_list : List Tag) :
    (LabelTags.load tag_list).idx2tag = tag_list.enum := by
  show hmFromList tag_list.enum = tag_list.enum
  apply hmFromList_of_nodup
  show (tag_list.enum.map Prod.fst).Nodup
  rw [List.enum_map_fst]
  exact List.nodup_range _

theorem idx2tag_load_length (tag_list : List Tag) :
    (LabelTags.load tag_list).idx2tag.length = tag_list.length := by
  rw [idx2tag_load]
  exact List.enum_length

/-- C1: for a loaded registry, `create_probality_pairs` succeeds if and only
if every probability vector of the batch has length exactly the registry's
total tag count; any other length makes the whole call fail with a
`TaggerError.Tag` error (a typed error, not a panic, and no truncation). -/
theorem C1_create_probality_pairs_length_gate
    (tag_list : List Tag) (tensor : List (List Rat)) :
    ((∃ res, (LabelTags.load tag_list).create_probality_pairs tensor = Except.ok res) ↔
      ∀ probs ∈ tensor, probs.length = (LabelTags.load tag_list).total_tags) ∧
    ∀ e, (LabelTags.load tag_list).create_probality_pairs tensor = Except.error e →
      ∃ msg, e = TaggerError.Tag msg := by
  constructor
  · rw [show (LabelTags.load tag_list).create_probality_pairs tensor =
        collectResults (fun probs => map_pair (LabelTags.load tag_list).idx2tag probs)
          tensor from rfl]
    rw [collectResults_ok_iff]
    constructor
    · intro h probs hp
      have hlen := (map_pair_ok_iff _ probs).mp (h probs hp)
      rw [idx2tag_load_length] at hlen
      exact hlen
    · intro h probs hp
      refine (map_pair_ok_iff _ probs).mpr ?_
      rw [idx2tag_load_length]
      exact h probs hp
  · intro e he
    obtain ⟨probs, _, hfe⟩ := collectResults_error _ _ e he
    exact ⟨_, map_pair_error _ _ _ hfe⟩

/-- Witness for C1 at a concrete input: a one-tag registry rejects a
length-two probability vector with a `TaggerError.Tag` error. -/
theorem C1_witness :
    ∃ msg, (LabelTags.load [⟨0, "a", TagCategory.General, 1⟩]).create_probality_pairs
      [[1, 2]] = Except.error (TaggerError.Tag msg) := by
  obtain ⟨msg, hmsg⟩ :=
    (C1_create_probality_pairs_length_gate [⟨0, "a", TagCategory.General, 1⟩]
      [[1, 2]]).2 (TaggerError.Tag "Tags and probabilities length mismatch") rfl
  exact ⟨msg, by rw [← hmsg]; rfl⟩

/-- C8 (amended: restricted to tag tables whose rows carry pairwise-distinct
names; `load` never validates this and duplicated names collapse into a
single entry of the name-keyed view): both lookup views hold exactly one
entry per row of the source table. -/
theorem C8_registry_view_sizes (tag_list : List Tag)
    (h : (tag_list.map Tag.name).Nodup) :
    (LabelTags.load tag_list).label2tag.length = (LabelTags.load tag_list).total_tags ∧
    (LabelTags.load tag_list).idx2tag.length = (LabelTags.load tag_list).total_tags := by
  constructor
  · show (hmFromList (tag_list.map fun tag => (tag.name, tag))).length = tag_list.length
    rw [hmFromList_of_nodup]
    · rw [List.length_map]
    · show ((tag_list.map fun tag => (tag.name, tag)).map Prod.fst).Nodup
      rw [List.map_map]
      exact h
  · rw [idx2tag_load_length]
    rfl

/-- Witness for C8 at a concrete input: a two-row table with distinct names. -/
theorem C8_witness :
    (LabelTags.load [⟨0, "a", TagCategory.General, 1⟩,
      ⟨1, "b", TagCategory.Rating, 2⟩]).label2tag.length
      = (LabelTags.load [⟨0, "a", TagCategory.General, 1⟩,
        ⟨1, "b", TagCategory.Rating, 2⟩]).total_tags :=
  (C8_registry_view_sizes
    [⟨0, "a", TagCategory.General, 1⟩, ⟨1, "b", TagCategory.Rating, 2⟩]
    (by decide)).1

/-- C8 counterexample: a two-row table with a duplicated name loads without
any error, yet the name-keyed view has a single entry while the registry's
total tag count is two — the claimed invariant fails as stated. -/
theorem C8_counterexample :
    ¬ ((LabelTags.load [⟨0, "d", TagCategory.General, 1⟩,
        ⟨1, "d", TagCategory.Character, 2⟩]).label2tag.length
      = (LabelTags.load [⟨0, "d", TagCategory.General, 1⟩,
        ⟨1, "d", TagCategory.Character, 2⟩]).total_tags) := by
  intro h
  have h1 : (LabelTags.load [⟨0, "d", TagCategory.General, 1⟩,
      ⟨1, "d", TagCategory.Character, 2⟩]).label2tag.length = 1 := rfl
  have h2 : (LabelTags.load [⟨0, "d", TagCategory.General, 1⟩,
      ⟨1, "d", TagCategory.Character, 2⟩]).total_tags = 2 := rfl
  rw [h1, h2] at h
  cases h

/-- C10: every tag name appearing in a mapping produced by
`create_probality_pairs` on a loaded registry is a key of the registry's
name-to-tag view, so the `.unwrap()` on the `label2tag().get(tag)` lookup
inside the pipeline's category filter never observes `None`. -/
theorem C10_label_lookup_total (tag_list : List Tag) (tensor : List (List Rat))
    (res : List (List (String × Rat)))
    (h : (LabelTags.load tag_list).create_probality_pairs tensor = Except.ok res) :
    ∀ m ∈ res, ∀ pr ∈ m,
      (hmGet (LabelTags.load tag_list).label2tag pr.1).isSome := by
  intro m hm pr hpr
  obtain ⟨probs, _, hmp⟩ := collectResults_ok_mem _ _ _ h m hm
  obtain ⟨hlen, hmEq⟩ := map_pair_ok_inv _ _ _ hmp
  have hk1 : pr.1 ∈ keys m := List.mem_map.mpr ⟨pr, hpr, rfl⟩
  rw [hmEq, mem_keys_hmFromList] at hk1
  unfold keys at hk1
  rw [List.map_map] at hk1
  obtain ⟨ip, hip, hname⟩ := List.mem_map.mp hk1
  have hip1 : ip.1 < probs.length := by
    have hmem : ip.1 ∈ probs.enum.map Prod.fst := List.mem_map.mpr ⟨ip, hip, rfl⟩
    rw [List.enum_map_fst, List.mem_range] at hmem
    exact hmem
  have hloadlen := idx2tag_load_length tag_list
  have hsome : (hmGet (LabelTags.load tag_list).idx2tag ip.1).isSome := by
    rw [hmGet_isSome_iff, idx2tag_load]
    show ip.1 ∈ tag_list.enum.map Prod.fst
    rw [List.enum_map_fst, List.mem_range]
    omega
  obtain ⟨t, ht⟩ := Option.isSome_iff_exists.mp hsome
  have htmem : (ip.1, t) ∈ (LabelTags.load tag_list).idx2tag :=
    hmGet_eq_some_mem _ _ _ ht
  rw [idx2tag_load] at htmem
  have htl : t ∈ tag_list := by
    have hmem : t ∈ tag_list.enum.map Prod.snd :=
      List.mem_map.mpr ⟨(ip.1, t), htmem, rfl⟩
    rwa [List.enum_map_snd] at hmem
  have hprname : pr.1 = t.name := by
    rw [← hname]
    simp [Function.comp, ht]
  rw [hmGet_isSome_iff]
  show pr.1 ∈ keys (hmFromList (tag_list.map fun tag => (tag.name, tag)))
  rw [mem_keys_hmFromList]
  unfold keys
  rw [List.map_map, hprname]
  exact List.mem_map.mpr ⟨t, htl, rfl⟩

/-- Witness for C10 at a concrete input: a one-tag registry, one probability
vector of matching length; the produced tag name is a key of the
name-to-tag view. -/
theorem C10_witness :
    (hmGet (LabelTags.load [⟨0, "a", TagCategory.General, 1⟩]).label2tag "a").isSome := by
  have h := C10_label_lookup_total [⟨0, "a", TagCategory.General, 1⟩] [[1]]
    [[("a", 1)]] rfl
  exact h [("a", 1)] (List.mem_singleton.mpr rfl) ("a", 1) (List.mem_singleton.mpr rfl)

/-! ### The image preprocessor (src/processor.rs) -/

/-- A color image as the `image` crate presents it to `process`: dimensions
plus a pixel accessor returning the four 8-bit RGBA channels. -/
structure DynamicImage where
  width : Nat
  height : Nat
  pixel : Nat → Nat → Nat × Nat × Nat × Nat

/-- An 8-bit RGB image buffer. -/
structure RgbImage where
  width : Nat
  height : Nat
  pixel : Nat → Nat → Nat × Nat × Nat

/-- One batch slice: a height × width × channels array of f32 values. -/
abbrev Tensor3 := List (List (List Rat))

/-- The 4-dimensional `Array<f32, Ix4>`: a list of batch slices. -/
abbrev Tensor4 := List Tensor3

/-- src/processor.rs `ImagePreprocessor`: the model's declared input shape. -/
structure ImagePreprocessor where
  channels : Nat
  height : Nat
  width : Nat

/-- Steps 1–2 of `ImagePreprocessor::process`: the canvas built by
`ImageBuffer::from_fn` over the source dimensions — `get_pixel_checked`
falls back to opaque white out of range, though `from_fn` only asks for
in-range coordinates — followed by `to_rgb8`, which drops the alpha
channel. -/
def toRgbCanvas (image : DynamicImage) : RgbImage where
  width := image.width
  height := image.height
  pixel := fun x y =>
    if x < image.width ∧ y < image.height then
      ((image.pixel x y).1, (image.pixel x y).2.1, (image.pixel x y).2.2.1)
    else (255, 255, 255)

/-- Step 3 of `ImagePreprocessor::process`: pad to a `max_dim × max_dim`
square canvas; `RgbImage::new` zero-initializes it (black) and the source
is centered via integer-division offsets. -/
def padToSquare (img : RgbImage) : RgbImage :=
  let max_dim := max img.width img.height
  let pad_left := (max_dim - img.width) / 2
  let pad_top := (max_dim - img.height) / 2
  { width := max_dim
    height := max_dim
    pixel := fun x y =>
      if pad_left ≤ x ∧ x < pad_left + img.width ∧
          pad_top ≤ y ∧ y < pad_top + img.height then
        img.pixel (x - pad_left) (y - pad_top)
      else (0, 0, 0) }

/-- The output slice of `ImagePreprocessor::process`: a zero-initialized
height × width × channels ndarray overwritten at channels 0/1/2 with the
resized image's B/G/R values; positions the resized image does not cover
keep the zero fill. -/
def processSlice (p : ImagePreprocessor) (resized : RgbImage) : Tensor3 :=
  (List.range p.height).map fun y =>
    (List.range p.width).map fun x =>
      (List.range p.channels).map fun ch =>
        if y < resized.height ∧ x < resized.width then
          if ch = 0 then ((resized.pixel x y).2.2 : Rat)
          else if ch = 1 then ((resized.pixel x y).2.1 : Rat)
          else if ch = 2 then ((resized.pixel x y).1 : Rat)
          else 0
        else 0

/-- src/processor.rs `ImagePreprocessor::process`.  The `image` crate's
`resize(width, height, FilterType::CatmullRom)` resampler is a third-party
collaborator passed in as `resize`; the source then converts RGB to BGR
into the zero tensor and inserts the leading batch axis of size one. -/
def ImagePreprocessor.process (p : ImagePreprocessor)
    (resize : Nat → Nat → RgbImage → RgbImage) (image : DynamicImage) :
    Except TaggerError Tensor4 :=
  Except.ok [processSlice p (resize p.width p.height (padToSquare (toRgbCanvas image)))]

/-- The non-batch shape (h, w, c) of a batch slice, as ndarray's
`concatenate` compares it. -/
def sliceDims (t : Tensor3) : Nat × Nat × Nat :=
  (t.length, (t.headD []).length, ((t.headD []).headD []).length)

/-- ndarray's `concatenate(Axis(0), ...)`: it fails on an empty array list
or on mismatched non-batch dimensions, otherwise it joins the batch
slices in order. -/
def concatenate0 (ts : List Tensor4) : Option Tensor4 :=
  match ts with
  | [] => none
  | t :: rest =>
    if rest.all fun s => decide (sliceDims (s.headD []) = sliceDims (t.headD [])) then
      some ((t :: rest).flatten)
    else none

/-- src/processor.rs, the provided `ImageProcessor::process_batch` of the
trait, generic over the trait's `process`: the `for` loop pushes each
per-image tensor and `?` aborts on the first error; then the tensors are
concatenated along the batch axis, a concatenation failure becoming a
`Processor` error. -/
def process_batch (process : DynamicImage → Except TaggerError Tensor4)
    (images : List DynamicImage) : Except TaggerError Tensor4 :=
  match collectResults process images with
  | Except.error e => Except.error e
  | Except.ok image_tensors =>
    match concatenate0 image_tensors with
    | some batch_tensor => Except.ok batch_tensor
    | none => Except.error (TaggerError.Processor "Failed to process batch")

theorem sliceDims_processSlice_const (p : ImagePreprocessor) (r1 r2 : RgbImage) :
    sliceDims (processSlice p r1) = sliceDims (processSlice p r2) := by
  unfold sliceDims processSlice
  cases hh : List.range p.height with
  | nil => simp [hh]
  | cons y ys =>
    cases hw : List.range p.width with
    | nil => simp [hh, hw]
    | cons x xs => simp [hh, hw]

theorem flatten_map_singleton {α β : Type} (f : α → β) (l : List α) :
    (l.map fun a => [f a]).flatten = l.map f := by
  induction l with
  | nil => rfl
  | cons a as ih => simp [ih]

theorem process_batch_eq (process : DynamicImage → Except TaggerError Tensor4)
    (images : List DynamicImage) (ts : List Tensor4)
    (hcoll : collectResults process images = Except.ok ts) :
    process_batch process images = (match concatenate0 ts with
      | some t => Except.ok t
      | none => Except.error (TaggerError.Processor "Failed to process batch")) := by
  unfold process_batch
  rw [hcoll]

theorem concatenate0_cons (t : Tensor4) (rest : List Tensor4) :
    concatenate0 (t :: rest) =
      if rest.all (fun s => decide (sliceDims (s.headD []) = sliceDims (t.headD []))) then
        some ((t :: rest).flatten)
      else none := rfl

theorem concatenate0_map_singleton {α : Type} (g : α → Tensor3)
    (hdims : ∀ x y, sliceDims (g x) = sliceDims (g y)) (a : α) (as : List α) :
    concatenate0 ((a :: as).map fun x => [g x]) = some ((a :: as).map g) := by
  rw [List.map_cons]
  rw [concatenate0_cons]
  rw [if_pos]
  · rw [show ([g a] :: as.map fun x => [g x]) = ((a :: as).map fun x => [g x]) from
      by rw [List.map_cons]]
    rw [flatten_map_singleton]
  · rw [List.all_eq_true]
    intro s hs
    rw [List.mem_map] at hs
    obtain ⟨x, _, rfl⟩ := hs
    rw [decide_eq_true_eq]
    simp only [List.headD_cons]
    exact hdims x a

/-- C5: for every image, `process` returns (without error) a 4-dimensional
tensor whose batch axis has size exactly one and whose further axes have
exactly the declared height, width and channel sizes — also when the
declared height and width differ. -/
theorem C5_process_shape (p : ImagePreprocessor)
    (resize : Nat → Nat → RgbImage → RgbImage) (image : DynamicImage) :
    ∃ t, p.process resize image = Except.ok t ∧ t.length = 1 ∧
      ∀ s ∈ t, s.length = p.height ∧
        ∀ row ∈ s, row.length = p.width ∧
          ∀ cell ∈ row, cell.length = p.channels := by
  refine ⟨_, rfl, rfl, ?_⟩
  intro s hs
  rw [List.mem_singleton] at hs
  subst hs
  constructor
  · simp [processSlice]
  · intro row hrow
    simp only [processSlice, List.mem_map] at hrow
    obtain ⟨y, _, rfl⟩ := hrow
    constructor
    · simp
    · intro cell hcell
      simp only [List.mem_map] at hcell
      obtain ⟨x, _, rfl⟩ := hcell
      simp

/-- C6 (amended: the image list must be non-empty, because
`ndarray::concatenate` fails on zero arrays — see the counterexample and
C9): `process_batch` over the preprocessor's `process` on K ≥ 1 images
yields a tensor with batch axis size K whose i-th batch slice is exactly
the single slice `process` returns for the i-th image, in input order. -/
theorem C6_process_batch_slices (p : ImagePreprocessor)
    (resize : Nat → Nat → RgbImage → RgbImage) (images : List DynamicImage)
    (hne : images ≠ []) :
    ∃ T, process_batch (fun img => p.process resize img) images = Except.ok T ∧
      T.length = images.length ∧
      ∀ i, i < images.length → ∃ img s, images.get? i = some img ∧
        T.get? i = some s ∧ p.process resize img = Except.ok [s] := by
  obtain ⟨a, as, rfl⟩ := List.exists_cons_of_ne_nil hne
  refine ⟨(a :: as).map fun img =>
    processSlice p (resize p.width p.height (padToSquare (toRgbCanvas img))), ?_, ?_, ?_⟩
  · have hcoll := collectResults_map (fun img => p.process resize img)
      (fun img => [processSlice p (resize p.width p.height (padToSquare (toRgbCanvas img)))])
      (fun img => rfl) (a :: as)
    rw [process_batch_eq _ _ _ hcoll]
    rw [concatenate0_map_singleton
      (fun img => processSlice p (resize p.width p.height (padToSquare (toRgbCanvas img))))
      (fun x y => sliceDims_processSlice_const p _ _) a as]
  · rw [List.length_map]
  · intro i hi
    refine ⟨(a :: as).get ⟨i, hi⟩,
      processSlice p (resize p.width p.height (padToSquare (toRgbCanvas ((a :: as).get ⟨i, hi⟩)))),
      List.get?_eq_get hi, ?_, rfl⟩
    rw [List.get?_eq_getElem?, List.getElem?_map]
    rw [← List.get?_eq_getElem?, List.get?_eq_get hi]
    rfl

/-- Witness for C6: a single concrete 1 × 1 image through a 3-channel
2 × 2 preprocessor gives a batch of size one. -/
theorem C6_witness :
    ∃ T, process_batch
      (fun img => ImagePreprocessor.process ⟨3, 2, 2⟩ (fun _ _ r => r) img)
      [⟨1, 1, fun _ _ => (9, 9, 9, 255)⟩] = Except.ok T ∧ T.length = 1 := by
  obtain ⟨T, hT, hlen, _⟩ := C6_process_batch_slices ⟨3, 2, 2⟩ (fun _ _ r => r)
    [⟨1, 1, fun _ _ => (9, 9, 9, 255)⟩] (by simp)
  exact ⟨T, hT, by simpa using hlen⟩

/-- C6 counterexample: on the empty image list every (vacuously quantified)
per-image `process` call succeeds, yet `process_batch` returns an error
rather than a tensor with batch axis size zero — the claim fails at K = 0. -/
theorem C6_counterexample :
    (∀ img ∈ ([] : List DynamicImage),
      ∃ t, ImagePreprocessor.process ⟨3, 2, 2⟩ (fun _ _ r => r) img = Except.ok t) ∧
    ¬ ∃ T, process_batch
      (fun img => ImagePreprocessor.process ⟨3, 2, 2⟩ (fun _ _ r => r) img)
      ([] : List DynamicImage) = Except.ok T := by
  constructor
  · intro img himg
    cases himg
  · rintro ⟨T, hT⟩
    exact Except.noConfusion hT

/-- C7: `process_batch` is error-atomic: when the image at position i fails
to preprocess and every earlier image succeeds, the whole batch call
returns exactly that first error and no partial result. -/
theorem C7_process_batch_error_atomic
    (process : DynamicImage → Except TaggerError Tensor4)
    (images : List DynamicImage) (i : Nat) (e : TaggerError)
    (hfail : ∃ img, images.get? i = some img ∧ process img = Except.error e)
    (hbefore : ∀ j, j < i → ∀ img, images.get? j = some img →
      ∃ t, process img = Except.ok t) :
    process_batch process images = Except.error e := by
  unfold process_batch
  rw [collectResults_error_at process images i e hfail hbefore]

/-- Witness for C7: a two-image batch whose second image fails; the batch
returns that error. -/
theorem C7_witness :
    process_batch
      (fun img => if img.width = 0 then Except.error (TaggerError.Processor "bad")
        else Except.ok [[[[1]]]])
      [⟨1, 1, fun _ _ => (0, 0, 0, 0)⟩, ⟨0, 1, fun _ _ => (0, 0, 0, 0)⟩]
      = Except.error (TaggerError.Processor "bad") := by
  apply C7_process_batch_error_atomic _ _ 1
  · exact ⟨⟨0, 1, fun _ _ => (0, 0, 0, 0)⟩, rfl, rfl⟩
  · intro j hj img himg
    have hj0 : j = 0 := by omega
    subst hj0
    injection himg with himg'
    subst himg'
    exact ⟨[[[[1]]]], rfl⟩

/-- C9: `process_batch` applied to the empty list of images does not return
an empty-batch tensor: the concatenation over zero per-image tensors fails,
and the call returns the `Processor` error. -/
theorem C9_process_batch_empty
    (process : DynamicImage → Except TaggerError Tensor4) :
    process_batch process [] =
      Except.error (TaggerError.Processor "Failed to process batch") := rfl

/-! ### The tagging pipeline (src/pipeline.rs) -/

/-- The prediction mapping, tag name to probability, in insertion order
(Rust's `IndexMap<String, f32>`). -/
abbrev Prediction := List (String × Rat)

/-- Stable insertion into a descending-by-value list: walk past strictly
larger values, so equal values keep their incoming order. -/
def insertDesc (x : String × Rat) : Prediction → Prediction
  | [] => [x]
  | y :: ys => if x.2 < y.2 then y :: insertDesc x ys else x :: y :: ys

/-- src/pipeline.rs `sort_by_value`: itertools `sorted_by` with comparator
`b.1.partial_cmp(a.1)`, a stable sort descending by probability, modelled
by stable insertion sort (probabilities are total-ordered rationals here,
so the source's `.unwrap()` on `partial_cmp` cannot fire). -/
def sort_by_value (map : Prediction) : Prediction :=
  map.foldr insertDesc []

/-- src/pipeline.rs `TaggingResult`. -/
structure TaggingResult where
  rating : Prediction
  character : Prediction
  general : Prediction

/-- src/pipeline.rs `TaggingResult::new`: sort each category mapping
descending by value. -/
def TaggingResult.new (rating character general : Prediction) : TaggingResult where
  rating := sort_by_value rating
  character := sort_by_value character
  general := sort_by_value general

/-- The registry category of a tag name, as the pipeline reads it:
`label2tag().get(tag).unwrap().category()` — the `.unwrap()` is modelled by
`Option.getD default` and shown unreachable-on-`None` by C10. -/
def lookupCategory (tags : LabelTags) (name : String) : TagCategory :=
  ((hmGet tags.label2tag name).getD default).category

/-- The `filter_tags!` macro body of `TaggingPipeline::predict` (repeated
verbatim in `predict_batch`): keep the pairs whose registry category equals
the requested one and whose probability is `>=` the threshold. -/
def filter_tags (tags : LabelTags) (threshold : Rat) (pairs : Prediction)
    (category : TagCategory) : Prediction :=
  pairs.filter fun pr =>
    decide (lookupCategory tags pr.1 = category ∧ threshold ≤ pr.2)

/-- The shared tail of `predict` and `predict_batch`: build the three
category buckets from one name/probability mapping and sort each. -/
def predict_from_pairs (tags : LabelTags) (threshold : Rat) (pairs : Prediction) :
    TaggingResult :=
  TaggingResult.new (filter_tags tags threshold pairs TagCategory.Rating)
    (filter_tags tags threshold pairs TagCategory.Character)
    (filter_tags tags threshold pairs TagCategory.General)

/-- src/pipeline.rs `TaggingPipeline`.  The loaded ONNX session is the
third-party inference engine; it enters the model as the function `model`,
tensor in, per-class probability rows out. -/
structure TaggingPipeline where
  model : Tensor4 → Except TaggerError (List (List Rat))
  preprocessor : ImagePreprocessor
  tags : LabelTags
  threshold : Rat

/-- src/pipeline.rs `TaggingPipeline::predict`: preprocess, infer, map the
probability rows to name/probability pairs, take the first row
(`pairs.first().unwrap()`, modelled by `headD`), then filter into the three
category buckets and sort. -/
def TaggingPipeline.predict (pl : TaggingPipeline)
    (resize : Nat → Nat → RgbImage → RgbImage) (image : DynamicImage) :
    Except TaggerError TaggingResult :=
  match pl.preprocessor.process resize image with
  | Except.error e => Except.error e
  | Except.ok tensor =>
    match pl.model tensor with
    | Except.error e => Except.error e
    | Except.ok probs =>
      match pl.tags.create_probality_pairs probs with
      | Except.error e => Except.error e
      | Except.ok pairs =>
        Except.ok (predict_from_pairs pl.tags pl.threshold (pairs.headD []))

/-- src/pipeline.rs `TaggingPipeline::predict_batch`: batch-preprocess,
infer once, then build one `TaggingResult` per probability row. -/
def TaggingPipeline.predict_batch (pl : TaggingPipeline)
    (resize : Nat → Nat → RgbImage → RgbImage) (images : List DynamicImage) :
    Except TaggerError (List TaggingResult) :=
  match process_batch (fun img => pl.preprocessor.process resize img) images with
  | Except.error e => Except.error e
  | Except.ok tensor =>
    match pl.model tensor with
    | Except.error e => Except.error e
    | Except.ok probs =>
      match pl.tags.create_probality_pairs probs with
      | Except.error e => Except.error e
      | Except.ok pairs =>
        Except.ok (pairs.map fun pr => predict_from_pairs pl.tags pl.threshold pr)

theorem mem_insertDesc (x z : String × Rat) (l : Prediction) :
    z ∈ insertDesc x l ↔ z = x ∨ z ∈ l := by
  induction l with
  | nil => simp [insertDesc]
  | cons y ys ih =>
    unfold insertDesc
    by_cases hxy : x.2 < y.2
    · rw [if_pos hxy]
      simp only [List.mem_cons, ih]
      tauto
    · rw [if_neg hxy]
      simp only [List.mem_cons]

theorem pairwise_insertDesc (x : String × Rat) (l : Prediction)
    (h : l.Pairwise fun a b => b.2 ≤ a.2) :
    (insertDesc x l).Pairwise fun a b => b.2 ≤ a.2 := by
  induction l with
  | nil => simp [insertDesc]
  | cons y ys ih =>
    rw [List.pairwise_cons] at h
    unfold insertDesc
    by_cases hxy : x.2 < y.2
    · rw [if_pos hxy]
      rw [List.pairwise_cons]
      constructor
      · intro z hz
        rcases (mem_insertDesc x z ys).mp hz with rfl | hz'
        · exact le_of_lt hxy
        · exact h.1 z hz'
      · exact ih h.2
    · rw [if_neg hxy]
      push_neg at hxy
      rw [List.pairwise_cons]
      constructor
      · intro z hz
        rcases List.mem_cons.mp hz with rfl | hz'
        · exact hxy
        · exact le_trans (h.1 z hz') hxy
      · exact List.pairwise_cons.mpr h

theorem mem_sort_by_value (z : String × Rat) (l : Prediction) :
    z ∈ sort_by_value l ↔ z ∈ l := by
  unfold sort_by_value
  induction l with
  | nil => simp
  | cons a as ih =>
    rw [List.foldr_cons, mem_insertDesc, ih, List.mem_cons]

theorem sorted_sort_by_value (l : Prediction) :
    (sort_by_value l).Pairwise fun a b => b.2 ≤ a.2 := by
  unfold sort_by_value
  induction l with
  | nil => simp
  | cons a as ih => exact pairwise_insertDesc a _ ih

theorem mem_filter_tags (tags : LabelTags) (threshold : Rat)
    (pairs : Prediction) (category : TagCategory) (pr : String × Rat) :
    pr ∈ filter_tags tags threshold pairs category ↔
      pr ∈ pairs ∧ lookupCategory tags pr.1 = category ∧ threshold ≤ pr.2 := by
  unfold filter_tags
  rw [List.mem_filter, decide_eq_true_eq]

theorem mem_predict_rating (tags : LabelTags) (thr : Rat) (pairs : Prediction)
    (nm : String) (p : Rat) :
    (nm, p) ∈ (predict_from_pairs tags thr pairs).rating ↔
      (nm, p) ∈ pairs ∧ lookupCategory tags nm = TagCategory.Rating ∧ thr ≤ p := by
  show (nm, p) ∈ sort_by_value _ ↔ _
  rw [mem_sort_by_value, mem_filter_tags]

theorem mem_predict_character (tags : LabelTags) (thr : Rat) (pairs : Prediction)
    (nm : String) (p : Rat) :
    (nm, p) ∈ (predict_from_pairs tags thr pairs).character ↔
      (nm, p) ∈ pairs ∧ lookupCategory tags nm = TagCategory.Character ∧ thr ≤ p := by
  show (nm, p) ∈ sort_by_value _ ↔ _
  rw [mem_sort_by_value, mem_filter_tags]

theorem mem_predict_general (tags : LabelTags) (thr : Rat) (pairs : Prediction)
    (nm : String) (p : Rat) :
    (nm, p) ∈ (predict_from_pairs tags thr pairs).general ↔
      (nm, p) ∈ pairs ∧ lookupCategory tags nm = TagCategory.General ∧ thr ≤ p := by
  show (nm, p) ∈ sort_by_value _ ↔ _
  rw [mem_sort_by_value, mem_filter_tags]

theorem predict_ok_inv (pl : TaggingPipeline)
    (resize : Nat → Nat → RgbImage → RgbImage) (image : DynamicImage)
    (res : TaggingResult) (h : pl.predict resize image = Except.ok res) :
    ∃ pairs, res = predict_from_pairs pl.tags pl.threshold pairs := by
  unfold TaggingPipeline.predict at h
  split at h
  · cases h
  · split at h
    · cases h
    · split at h
      · cases h
      · injection h with h'
        exact ⟨_, h'.symm⟩

theorem predict_batch_ok_inv (pl : TaggingPipeline)
    (resize : Nat → Nat → RgbImage → RgbImage) (images : List DynamicImage)
    (ress : List TaggingResult)
    (h : pl.predict_batch resize images = Except.ok ress) :
    ∀ res ∈ ress, ∃ pairs, res = predict_from_pairs pl.tags pl.threshold pairs := by
  unfold TaggingPipeline.predict_batch at h
  split at h
  · cases h
  · split at h
    · cases h
    · split at h
      · cases h
      · injection h with h'
        subst h'
        intro res hres
        rw [List.mem_map] at hres
        obtain ⟨pr, _, rfl⟩ := hres
        exact ⟨pr, rfl⟩

/-- C2: for any name/probability pair set as produced inside `predict`, a
pair is placed in a category bucket exactly when its registry category is
that bucket's category and its probability is `>=` the fixed threshold: a
probability exactly equal to the threshold is retained, one strictly below
is excluded. -/
theorem C2_threshold_inclusive (tags : LabelTags) (threshold : Rat)
    (pairs : Prediction) (nm : String) (p : Rat) :
    ((nm, p) ∈ (predict_from_pairs tags threshold pairs).rating ↔
      (nm, p) ∈ pairs ∧ lookupCategory tags nm = TagCategory.Rating ∧ threshold ≤ p) ∧
    ((nm, p) ∈ (predict_from_pairs tags threshold pairs).character ↔
      (nm, p) ∈ pairs ∧ lookupCategory tags nm = TagCategory.Character ∧ threshold ≤ p) ∧
    ((nm, p) ∈ (predict_from_pairs tags threshold pairs).general ↔
      (nm, p) ∈ pairs ∧ lookupCategory tags nm = TagCategory.General ∧ threshold ≤ p) :=
  ⟨mem_predict_rating tags threshold pairs nm p,
    mem_predict_character tags threshold pairs nm p,
    mem_predict_general tags threshold pairs nm p⟩

/-- The disjointness shape claimed by C3 for one prediction result. -/
def BucketsDisjoint (tags : LabelTags) (res : TaggingResult) : Prop :=
  (∀ nm p q, (nm, p) ∈ res.rating → (nm, q) ∈ res.character → False) ∧
  (∀ nm p q, (nm, p) ∈ res.rating → (nm, q) ∈ res.general → False) ∧
  (∀ nm p q, (nm, p) ∈ res.character → (nm, q) ∈ res.general → False) ∧
  ∀ nm p, (lookupCategory tags nm = TagCategory.Artist ∨
      lookupCategory tags nm = TagCategory.Copyright ∨
      lookupCategory tags nm = TagCategory.Meta) →
    (nm, p) ∉ res.rating ∧ (nm, p) ∉ res.character ∧ (nm, p) ∉ res.general

theorem bucketsDisjoint_from_pairs (tags : LabelTags) (thr : Rat)
    (pairs : Prediction) :
    BucketsDisjoint tags (predict_from_pairs tags thr pairs) := by
  refine ⟨?_, ?_, ?_, ?_⟩
  · intro nm p q hp hq
    have h1 := ((mem_predict_rating tags thr pairs nm p).mp hp).2.1
    have h2 := ((mem_predict_character tags thr pairs nm q).mp hq).2.1
    rw [h1] at h2
    cases h2
  · intro nm p q hp hq
    have h1 := ((mem_predict_rating tags thr pairs nm p).mp hp).2.1
    have h2 := ((mem_predict_general tags thr pairs nm q).mp hq).2.1
    rw [h1] at h2
    cases h2
  · intro nm p q hp hq
    have h1 := ((mem_predict_character tags thr pairs nm p).mp hp).2.1
    have h2 := ((mem_predict_general tags thr pairs nm q).mp hq).2.1
    rw [h1] at h2
    cases h2
  · intro nm p hcat
    refine ⟨?_, ?_, ?_⟩
    · intro hmem
      have h1 := ((mem_predict_rating tags thr pairs nm p).mp hmem).2.1
      rcases hcat with h | h | h <;> rw [h1] at h <;> cases h
    · intro hmem
      have h1 := ((mem_predict_character tags thr pairs nm p).mp hmem).2.1
      rcases hcat with h | h | h <;> rw [h1] at h <;> cases h
    · intro hmem
      have h1 := ((mem_predict_general tags thr pairs nm p).mp hmem).2.1
      rcases hcat with h | h | h <;> rw [h1] at h <;> cases h

/-- C3: every result returned by `predict` or by `predict_batch` has
pairwise disjoint rating / character / general mappings (a name can appear
only in the bucket of its registry category), and names whose registry
category is Artist, Copyright or Meta appear in none of the three. -/
theorem C3_buckets_disjoint (pl : TaggingPipeline)
    (resize : Nat → Nat → RgbImage → RgbImage) :
    (∀ image res, pl.predict resize image = Except.ok res →
      BucketsDisjoint pl.tags res) ∧
    (∀ images ress, pl.predict_batch resize images = Except.ok ress →
      ∀ res ∈ ress, BucketsDisjoint pl.tags res) := by
  constructor
  · intro image res h
    obtain ⟨pairs, rfl⟩ := predict_ok_inv pl resize image res h
    exact bucketsDisjoint_from_pairs pl.tags pl.threshold pairs
  · intro images ress h res hres
    obtain ⟨pairs, rfl⟩ := predict_batch_ok_inv pl resize images ress h res hres
    exact bucketsDisjoint_from_pairs pl.tags pl.threshold pairs

/-- A concrete pipeline over a two-tag registry: the inference engine is
modelled by a constant probability row; used by witness instances. -/
def samplePipeline : TaggingPipeline where
  model := fun _ => Except.ok [[1, (1 : Rat) / 2]]
  preprocessor := ⟨3, 1, 1⟩
  tags := LabelTags.load
    [⟨0, "r", TagCategory.Rating, 1⟩, ⟨1, "art", TagCategory.Artist, 1⟩]
  threshold := 35 / 100

/-- A concrete resampler standing in for the image crate's CatmullRom
filter in witness instances. -/
def sampleResize : Nat → Nat → RgbImage → RgbImage := fun _ _ r => r

/-- A concrete 1 × 1 image for witness instances. -/
def sampleImage : DynamicImage := ⟨1, 1, fun _ _ => (10, 20, 30, 255)⟩

/-- Witness for C3: on the concrete pipeline, the Artist-category tag
appears in no bucket of the returned result. -/
theorem C3_witness :
    ∃ res, samplePipeline.predict sampleResize sampleImage = Except.ok res ∧
      ("art", (1 : Rat) / 2) ∉ res.rating ∧ ("art", (1 : Rat) / 2) ∉ res.character ∧
      ("art", (1 : Rat) / 2) ∉ res.general := by
  obtain ⟨res, hres⟩ : ∃ res, samplePipeline.predict sampleResize sampleImage
      = Except.ok res := ⟨_, rfl⟩
  have h := (C3_buckets_disjoint samplePipeline sampleResize).1 sampleImage res hres
  exact ⟨res, hres, h.2.2.2 "art" ((1 : Rat) / 2) (Or.inl (by rfl))⟩

/-- The per-bucket descending-probability shape claimed by C4. -/
def BucketsSortedDesc (res : TaggingResult) : Prop :=
  (res.rating.Pairwise fun a b => b.2 ≤ a.2) ∧
  (res.character.Pairwise fun a b => b.2 ≤ a.2) ∧
  (res.general.Pairwise fun a b => b.2 ≤ a.2)

/-- C4: in every result of `predict` or `predict_batch`, each of the three
category mappings lists its entries in non-increasing probability order. -/
theorem C4_buckets_sorted (pl : TaggingPipeline)
    (resize : Nat → Nat → RgbImage → RgbImage) :
    (∀ image res, pl.predict resize image = Except.ok res →
      BucketsSortedDesc res) ∧
    (∀ images ress, pl.predict_batch resize images = Except.ok ress →
      ∀ res ∈ ress, BucketsSortedDesc res) := by
  have key : ∀ pairs, BucketsSortedDesc (predict_from_pairs pl.tags pl.threshold pairs) :=
    fun pairs =>
      ⟨sorted_sort_by_value _, sorted_sort_by_value _, sorted_sort_by_value _⟩
  constructor
  · intro image res h
    obtain ⟨pairs, rfl⟩ := predict_ok_inv pl resize image res h
    exact key pairs
  · intro images ress h res hres
    obtain ⟨pairs, rfl⟩ := predict_batch_ok_inv pl resize images ress h res hres
    exact key pairs

/-- Witness for C4: the concrete pipeline's result has a descending general
bucket. -/
theorem C4_witness :
    ∃ res, samplePipeline.predict sampleResize sampleImage = Except.ok res ∧
      (res.general.Pairwise fun a b => b.2 ≤ a.2) := by
  obtain ⟨res, hres⟩ : ∃ res, samplePipeline.predict sampleResize sampleImage
      = Except.ok res := ⟨_, rfl⟩
  exact ⟨res, hres,
    ((C4_buckets_sorted samplePipeline sampleResize).1 sampleImage res hres).2.2⟩

/-- Witness for C2: a Rating-category pair whose probability exceeds the
threshold lands in the rating bucket. -/
theorem C2_witness :
    ("r", (1 : Rat)) ∈ (predict_from_pairs samplePipeline.tags (35 / 100)
      [("r", 1)]).rating := by
  rw [(C2_threshold_inclusive samplePipeline.tags (35 / 100) [("r", 1)] "r" 1).1]
  refine ⟨List.mem_singleton.mpr rfl, by rfl, by norm_num⟩

/-- Witness for C5: the concrete 1 × 1 image through a 3-channel 2 × 2
preprocessor gives a batch-1 tensor. -/
theorem C5_witness :
    ∃ t, ImagePreprocessor.process ⟨3, 2, 2⟩ sampleResize sampleImage
      = Except.ok t ∧ t.length = 1 := by
  obtain ⟨t, ht, h1, _⟩ := C5_process_shape ⟨3, 2, 2⟩ sampleResize sampleImage
  exact ⟨t, ht, h1⟩

/-- Witness for C9: the empty batch fails for a concrete preprocessor. -/
theorem C9_witness :
    process_batch (fun img => ImagePreprocessor.process ⟨3, 1, 1⟩ sampleResize img)
      [] = Except.error (TaggerError.Processor "Failed to process batch") :=
  C9_process_batch_empty _

end WdTagger
